import Mathlib

/-!
# Verification of the travel-assistant workflow orchestration core

Shallow embedding of `src/agengo_code/travel_assistant.py` and proofs of the
spec's claims about it.  Python machine types are modelled as follows:
`str` as `String`, `int` as `ℤ`, `float` as `ℚ`, lists as `List`,
possibly-absent TypedDict keys as `Option`, raising code as `Except PyErr`.
LLM and HTTP collaborators are oracles (explicit function parameters),
matching the spec's "swappable black boxes" boundary.
-/

namespace TravelAssistant

deriving instance DecidableEq for Except

/-- Python exceptions raised by the embedded code. -/
inductive PyErr where
  | keyError (key : String)
  | indexError
  | valueError (msg : String)
  | serviceError (msg : String)
deriving DecidableEq, Repr

/-- `str(e)` for the exceptions we model. -/
def PyErr.message : PyErr → String
  | .keyError k => k
  | .indexError => "list index out of range"
  | .valueError m => m
  | .serviceError m => m

/-- Python truthiness of an optional string (`None` and `""` are falsy). -/
def pyTruthy : Option String → Bool
  | none => false
  | some s => !(s == "")

/-- `state.get(key, default)` / dict lookup with default. -/
def pyGetD {α : Type} (x : Option α) (d : α) : α := x.getD d

/-- `state[key]`: direct indexing, `KeyError` when the key is absent. -/
def pyIndex {α : Type} (key : String) (x : Option α) : Except PyErr α :=
  match x with
  | some v => .ok v
  | none => .error (.keyError key)

/-- `l[:d]` — Python slice-to semantics, including negative stops. -/
def pySliceTo {α : Type} (d : ℤ) (l : List α) : List α :=
  l.take ((if 0 ≤ d then d else (l.length : ℤ) + d).toNat)

/-- Substring test on character lists: some tail of `hay` starts with `needle`. -/
def containsSeq (needle hay : List Char) : Bool :=
  hay.tails.any fun t => needle.isPrefixOf t

/-- Python `needle in hay` on strings. -/
def strContains (hay needle : String) : Bool :=
  containsSeq needle.data hay.data

/-! ## Messages and the dialogue loop (`route_messages`, lines 339-351) -/

/-- Message role: `HumanMessage` vs `AIMessage`. -/
inductive Role where
  | human
  | ai
deriving DecidableEq, Repr

/-- A LangChain message as used by the dialogue graph: role, optional
`name` attribute, content.  `generate_answer` sets `name = "local"` on the
local's answers (line 326); questions from `generate_question` carry no name. -/
structure Msg where
  role : Role
  name : Option String
  content : String
deriving DecidableEq, Repr

/-- The closing phrase checked by `route_messages` (line 349). -/
def closingPhrase : String := "Thank you so much for your help"

/-- `num_responses`: count of `AIMessage`s whose `name` equals the given
name (lines 343-345). -/
def countResponses (name : String) (messages : List Msg) : ℕ :=
  (messages.filter fun m => m.role == Role.ai && m.name == some name).length

/-- `messages[-2]`: Python negative indexing; `IndexError` when the list has
fewer than two elements. -/
def pyPenult (l : List Msg) : Except PyErr Msg :=
  if h : 2 ≤ l.length then .ok (l.get ⟨l.length - 2, by omega⟩)
  else .error .indexError

/-- `route_messages` (lines 339-351): conclude when the named responder has
answered `max_num_turns` times, or when the penultimate message (the last
question) contains the closing phrase; otherwise keep asking. -/
def route_messages (messages : List Msg) (maxNumTurns : ℤ)
    (name : String := "local") : Except PyErr String :=
  if (countResponses name messages : ℤ) ≥ maxNumTurns then .ok "save_dialogue"
  else
    match pyPenult messages with
    | .error e => .error e
    | .ok lastQuestion =>
        if strContains lastQuestion.content closingPhrase then .ok "save_dialogue"
        else .ok "ask_question"

/-- An interviewer (traveler) question: `AIMessage` with no name. -/
def mkQuestion (c : String) : Msg := ⟨Role.ai, none, c⟩

/-- A local's answer: `AIMessage` with `name = "local"` (line 326). -/
def mkAnswer (c : String) : Msg := ⟨Role.ai, some "local", c⟩

/-- The conversation after `k` full ask/answer cycles of the dialogue loop:
the seed `HumanMessage` followed by `k` question/answer pairs, with question
and answer contents drawn from the oracles `q` and `a`. -/
def convo (seed : Msg) (q a : ℕ → String) : ℕ → List Msg
  | 0 => [seed]
  | k + 1 => convo seed q a k ++ [mkQuestion (q k), mkAnswer (a k)]

/-- Count of interviewer (traveler) turns: nameless `AIMessage`s. -/
def interviewerTurns (messages : List Msg) : ℕ :=
  (messages.filter fun m => m.role == Role.ai && m.name == none).length

/-! ## Weather lookup and aggregation (`get_latlon`, `get_weather`,
`get_weather_info`, lines 123-200)

Floats are modelled as rationals; Python's `round(x, n)` is modelled with
Mathlib's integer rounding after scaling (the claims under test evaluate
rounding away from half-way ties, where the two agree). -/

/-- One raw forecast sample from the upstream list (`data = resp.json()["list"]`):
timestamp text, temperature, weather description, precipitation probability
(`item.get("pop", 0.0)` — absent keys are already defaulted to 0.0 here). -/
structure Sample where
  dt_txt : String
  temp : ℚ
  desc : String
  pop : ℚ
deriving DecidableEq, Repr

/-- `s[:n]` on a string: its first `n` characters. -/
def strTake (s : String) (n : ℕ) : String := String.mk (s.data.take n)

/-- `item["dt_txt"][:10]`: the calendar-date prefix of the timestamp. -/
def Sample.date (s : Sample) : String := strTake s.dt_txt 10

/-- The per-date accumulator built at lines 159-166:
`{"temps": [...], "descs": [...], "pops": [...]}`. -/
structure DayRec where
  temps : List ℚ
  descs : List String
  pops : List ℚ
deriving DecidableEq, Repr

/-- One aggregated output record (lines 170-176). -/
structure DayForecast where
  date : String
  summary : String
  temp_max : ℚ
  temp_min : ℚ
  pop_max : ℚ
deriving DecidableEq, Repr

/-- Append one sample to its date's accumulator in the insertion-ordered
dict `daily` (lines 160-166); a new date gets a fresh singleton record. -/
def addSample (groups : List (String × DayRec)) (s : Sample) : List (String × DayRec) :=
  match groups with
  | [] => [(s.date, ⟨[s.temp], [s.desc], [s.pop]⟩)]
  | (d, r) :: rest =>
      if d = s.date then
        (d, ⟨r.temps ++ [s.temp], r.descs ++ [s.desc], r.pops ++ [s.pop]⟩) :: rest
      else (d, r) :: addSample rest s

/-- The `daily` dict after the grouping loop, as an insertion-ordered
association list. -/
def groupByDate (samples : List Sample) : List (String × DayRec) :=
  samples.foldl addSample []

/-- The loop body's effect on one date's record: extend the existing record
or start a fresh one (lines 162-166). -/
def pushRec (r : Option DayRec) (s : Sample) : DayRec :=
  match r with
  | some r => ⟨r.temps ++ [s.temp], r.descs ++ [s.desc], r.pops ++ [s.pop]⟩
  | none => ⟨[s.temp], [s.desc], [s.pop]⟩

/-- Association-list lookup (Python dict access on `daily`). -/
def alookup (d : String) : List (String × DayRec) → Option DayRec
  | [] => none
  | (k, v) :: rest => if k = d then some v else alookup d rest

/-- Insert a keyed pair into a key-sorted list. -/
def insertPairAsc (p : String × DayRec) :
    List (String × DayRec) → List (String × DayRec)
  | [] => [p]
  | q :: qs => if p.1 ≤ q.1 then p :: q :: qs else q :: insertPairAsc p qs

/-- `sorted(daily.items())`: sort the grouped records by date key (the keys
are distinct, so tuple comparison never reaches the dict component). -/
def sortPairsAsc (l : List (String × DayRec)) : List (String × DayRec) :=
  l.foldr insertPairAsc []

/-- Python `max(iterable, key=k)`: the first element attaining the maximal
key (a later element replaces the current one only on a strictly greater
key); `""` stands in for the `ValueError` on an empty iterable, which the
grouping loop never produces. -/
def pyMaxBy (k : String → ℕ) : List String → String
  | [] => ""
  | x :: xs => xs.foldl (fun acc y => if k y > k acc then y else acc) x

/-- First-occurrence deduplication, carrying the elements already seen. -/
def dedupFirstAux (seen : List String) : List String → List String
  | [] => []
  | x :: xs => if x ∈ seen then dedupFirstAux seen xs
               else x :: dedupFirstAux (x :: seen) xs

/-- Distinct elements of a list in first-encounter order (the order in which
the frequency scan first meets each description). -/
def dedupFirst (l : List String) : List String := dedupFirstAux [] l

/-- A valid iteration order of Python's `set(descs)`: duplicate-free and
containing exactly the elements of `descs`.  CPython's actual order is
hash-dependent and unspecified, so the embedding quantifies over it. -/
def ValidEnumOn (descs enum_l : List String) : Prop :=
  enum_l.Nodup ∧ (∀ x ∈ enum_l, x ∈ descs) ∧ (∀ x ∈ descs, x ∈ enum_l)

instance (descs enum_l : List String) : Decidable (ValidEnumOn descs enum_l) := by
  unfold ValidEnumOn
  infer_instance

/-- The reversed first-encounter enumeration: one concrete valid set order. -/
def revDedup (l : List String) : List String := (dedupFirst l).reverse

/-- `max` on a float list (Python `max`, nonempty in all uses). -/
def qMax : List ℚ → ℚ
  | [] => 0
  | x :: xs => xs.foldl max x

/-- `min` on a float list. -/
def qMin : List ℚ → ℚ
  | [] => 0
  | x :: xs => xs.foldl min x

/-- `round(x, 1)`. -/
def round1 (q : ℚ) : ℚ := ((round (q * 10) : ℤ) : ℚ) / 10

/-- `round(x, 2)`. -/
def round2 (q : ℚ) : ℚ := ((round (q * 100) : ℤ) : ℚ) / 100

/-- One output record of the aggregation loop (lines 170-176), given the
set-iteration-order oracle `enum` for the summary's `max(set(...))`. -/
def mkForecast (enum : List String → List String) (p : String × DayRec) : DayForecast :=
  { date := p.1
    summary := pyMaxBy (fun x => (p.2.descs).count x) (enum p.2.descs)
    temp_max := round1 (qMax p.2.temps)
    temp_min := round1 (qMin p.2.temps)
    pop_max := round2 (qMax p.2.pops) }

/-- The aggregation step of `get_weather` (lines 158-176): group the raw
samples by calendar date, sort by date, truncate to `days`, and summarise
each date's record. -/
def aggregate (enum : List String → List String) (samples : List Sample)
    (days : ℤ) : List DayForecast :=
  (pySliceTo days (sortPairsAsc (groupByDate samples))).map (mkForecast enum)

/-- A forecast-list entry: either an aggregated day or the error-marker
dict `{"error": ...}`. -/
inductive WeatherItem where
  | forecast (d : DayForecast)
  | errorMarker (msg : String)
deriving DecidableEq, Repr

/-- The external collaborators consumed by `get_weather`: the configured
API key, the geocoding response (`nominatim` results for a city), the
forecast response for a coordinate pair, and the iteration order CPython
gives `set(...)` during summarisation.  Failing HTTP calls are `.error`. -/
structure WeatherEnv where
  key : String
  nominatim : String → Except PyErr (List (ℚ × ℚ))
  forecast : ℚ → ℚ → Except PyErr (List Sample)
  setOrder : List String → List String

/-- `get_latlon` (lines 123-135): geocode a city, raising `ValueError` when
no result is returned. -/
def get_latlon (env : WeatherEnv) (city : String) : Except PyErr (ℚ × ℚ) :=
  match env.nominatim city with
  | .error e => .error e
  | .ok [] => .error (.valueError ("Cannot resolve coordinates for '" ++ city ++ "'"))
  | .ok (x :: _) => .ok x

/-- The body of `get_weather`'s `try` block up to obtaining the raw sample
list (lines 143-156). -/
def fetchSamples (env : WeatherEnv) (city : String) : Except PyErr (List Sample) :=
  match get_latlon env city with
  | .error e => .error e
  | .ok ll => env.forecast ll.1 ll.2

/-- `get_weather` (lines 137-188): sentinel record when the API key is
unset; aggregated daily forecasts on success; a single-element error-marker
record when anything in the `try` block raises. -/
def get_weather (env : WeatherEnv) (city : String) (days : ℤ) : List WeatherItem :=
  if env.key = "" then [.errorMarker "OpenWeather API key not set"]
  else
    match fetchSamples env city with
    | .error e =>
        [.errorMarker ("Failed to get weather information: " ++ e.message)]
    | .ok samples => (aggregate env.setOrder samples days).map .forecast

/-! ## State, merge and the dialogue-graph state (`dialogueState`, lines 66-74;
`TravelGraphState`, lines 86-97)

Each `Annotated[list, operator.add]` field is a list channel merged by
concatenation; plain TypedDict fields are replace-on-update scalars that may
be absent (`Option`).  The `messages` channel of `MessagesState` is managed
by the library's `add_messages` reducer, which appends messages with fresh
ids — every update in this program contains only newly constructed messages,
so it is concatenation here as well. -/

/-- A traveler persona (lines 42-49). -/
structure Traveler where
  name : String
  description : String
deriving DecidableEq, Repr

/-- `dialogueState` (lines 66-74). -/
structure DState where
  messages : List Msg
  max_num_turns : Option ℤ
  context : List String
  traveler : Option Traveler
  dialogue : Option String
  sections : List String
  city : Option String
deriving DecidableEq, Repr

/-- A node's partial update against `dialogueState`: absent scalar keys are
`none`, absent list-channel keys are `[]` (concatenating `[]` is a no-op,
exactly the semantics of not mentioning the channel). -/
structure DUpdate where
  messages : List Msg := []
  max_num_turns : Option ℤ := none
  context : List String := []
  traveler : Option Traveler := none
  dialogue : Option String := none
  sections : List String := []
  city : Option String := none
deriving DecidableEq, Repr

/-- Scalar-channel merge: replace when the update carries the key. -/
def updField {α : Type} (old u : Option α) : Option α :=
  match u with
  | some v => some v
  | none => old

/-- The State Store merge for the dialogue state: concatenate the
`operator.add` channels, replace present scalars, leave absent fields alone. -/
def mergeD (s : DState) (u : DUpdate) : DState :=
  { messages := s.messages ++ u.messages
    max_num_turns := updField s.max_num_turns u.max_num_turns
    context := s.context ++ u.context
    traveler := updField s.traveler u.traveler
    dialogue := updField s.dialogue u.dialogue
    sections := s.sections ++ u.sections
    city := updField s.city u.city }

/-- Sequential composition of two partial updates. -/
def concatD (a b : DUpdate) : DUpdate :=
  { messages := a.messages ++ b.messages
    max_num_turns := updField a.max_num_turns b.max_num_turns
    context := a.context ++ b.context
    traveler := updField a.traveler b.traveler
    dialogue := updField a.dialogue b.dialogue
    sections := a.sections ++ b.sections
    city := updField a.city b.city }

/-- An update that touches only the append-only sequence channels
(sections, context, messages). -/
def DUpdate.appendOnly (u : DUpdate) : Prop :=
  u.max_num_turns = none ∧ u.traveler = none ∧ u.dialogue = none ∧ u.city = none

instance (u : DUpdate) : Decidable u.appendOnly := by
  unfold DUpdate.appendOnly
  infer_instance

/-! ## The main workflow (`TravelGraphState` and the builder, lines 86-97
and 190-566) -/

/-- `TravelGraphState` (lines 86-97): `sections` is the single
`operator.add` channel (initialised empty), all other keys are plain
TypedDict entries that may be absent. -/
structure MState where
  city : Option String
  weather : Option (List WeatherItem)
  days : Option ℤ
  max_travelers : Option ℤ
  human_feedback_traveler : Option String
  human_feedback_plan : Option String
  travelers : Option (List Traveler)
  sections : List String
  content : Option String
  final_plan : Option String
deriving DecidableEq, Repr

/-- A node's partial update against `TravelGraphState`. -/
structure MUpdate where
  city : Option String := none
  weather : Option (List WeatherItem) := none
  days : Option ℤ := none
  max_travelers : Option ℤ := none
  human_feedback_traveler : Option String := none
  human_feedback_plan : Option String := none
  travelers : Option (List Traveler) := none
  sections : List String := []
  content : Option String := none
  final_plan : Option String := none
deriving DecidableEq, Repr

/-- The State Store merge for the main workflow state. -/
def mergeMain (s : MState) (u : MUpdate) : MState :=
  { city := updField s.city u.city
    weather := updField s.weather u.weather
    days := updField s.days u.days
    max_travelers := updField s.max_travelers u.max_travelers
    human_feedback_traveler := updField s.human_feedback_traveler u.human_feedback_traveler
    human_feedback_plan := updField s.human_feedback_plan u.human_feedback_plan
    travelers := updField s.travelers u.travelers
    sections := s.sections ++ u.sections
    content := updField s.content u.content
    final_plan := updField s.final_plan u.final_plan }

/-- Sequential composition of two main-state partial updates. -/
def concatMainU (a b : MUpdate) : MUpdate :=
  { city := updField a.city b.city
    weather := updField a.weather b.weather
    days := updField a.days b.days
    max_travelers := updField a.max_travelers b.max_travelers
    human_feedback_traveler := updField a.human_feedback_traveler b.human_feedback_traveler
    human_feedback_plan := updField a.human_feedback_plan b.human_feedback_plan
    travelers := updField a.travelers b.travelers
    sections := a.sections ++ b.sections
    content := updField a.content b.content
    final_plan := updField a.final_plan b.final_plan }

/-- A main-state update touching only the append-only `sections` channel. -/
def MUpdate.appendOnly (u : MUpdate) : Prop :=
  u.city = none ∧ u.weather = none ∧ u.days = none ∧ u.max_travelers = none ∧
  u.human_feedback_traveler = none ∧ u.human_feedback_plan = none ∧
  u.travelers = none ∧ u.content = none ∧ u.final_plan = none

instance (u : MUpdate) : Decidable u.appendOnly := by
  unfold MUpdate.appendOnly
  infer_instance

/-- The LLM collaborators of the main workflow (spec §6 generation service),
plus the weather environment: persona synthesis output, section text per
traveler, and plan text from the plan-writer inputs. -/
structure Oracle where
  env : WeatherEnv
  genTravelers : MState → List Traveler
  genSection : Traveler → String
  genPlan : String → ℤ → List WeatherItem → List String → String → String

/-- `get_weather_info` (lines 190-200): defaulted reads, stores the
`get_weather` result — marker records included — as the `weather` value. -/
def get_weather_info (env : WeatherEnv) (s : MState) : MUpdate :=
  { weather := some (get_weather env (pyGetD s.city "tokyo") (pyGetD s.days 5)) }

/-- `create_travelers` (lines 202-222): direct indexing of `city`,
`weather`, `days`, `max_travelers` (KeyError when absent), defaulted read of
the traveler feedback, then the structured persona call. -/
def create_travelers (o : Oracle) (s : MState) : Except PyErr MUpdate := do
  let _ ← pyIndex "city" s.city
  let _ ← pyIndex "weather" s.weather
  let _ ← pyIndex "days" s.days
  let _ ← pyIndex "max_travelers" s.max_travelers
  pure { travelers := some (o.genTravelers s) }

/-- `write_plan` (lines 517-533): direct indexing of `days`, `sections`,
`city`, `weather` and `human_feedback_plan` in source order, then the plan
call.  `sections` is the always-present `operator.add` channel. -/
def write_plan (o : Oracle) (s : MState) : Except PyErr MUpdate := do
  let days ← pyIndex "days" s.days
  let sections := s.sections
  let city ← pyIndex "city" s.city
  let weather ← pyIndex "weather" s.weather
  let hfp ← pyIndex "human_feedback_plan" s.human_feedback_plan
  pure { final_plan := some (o.genPlan city days weather sections hfp) }

/-- One `Send("conduct_dialogue_sub", {...})` task (lines 445-454). -/
structure SendTask where
  target : String
  traveler : Traveler
  messages : List Msg
  max_num_turns : ℤ
  context : List String
  dialogue : String
  sections : List String
  city : String
  max_travelers : ℤ
deriving DecidableEq, Repr

/-- A router's verdict: a single next node, or a fan-out task list. -/
inductive RouterResult where
  | goto (node : String)
  | sends (tasks : List SendTask)
deriving DecidableEq, Repr

/-- The seed state for one traveler's dialogue sub-execution (lines 445-454). -/
def sendFor (s : MState) (t : Traveler) : SendTask :=
  { target := "conduct_dialogue_sub"
    traveler := t
    messages := [⟨Role.human, none,
      "So you said you plan to have a trip on " ++ pyGetD s.city "" ++ "?"⟩]
    max_num_turns := 2
    context := []
    dialogue := ""
    sections := []
    city := pyGetD s.city ""
    max_travelers := pyGetD s.max_travelers 3 }

/-- `conduct_dialogue_router` (lines 436-454): truthy traveler feedback
loops back to `create_travelers`; otherwise one `Send` per traveler. -/
def conduct_dialogue_router (s : MState) : RouterResult :=
  if pyTruthy s.human_feedback_traveler then .goto "create_travelers"
  else .sends ((pyGetD s.travelers []).map (sendFor s))

/-- `initiate_all_plans` (lines 539-545): the dead-code router that would
end the run on empty plan feedback.  It is never registered on the builder
(lines 547-562), so no edge of the compiled graph consults it. -/
def initiate_all_plans (s : MState) : String :=
  if pyTruthy s.human_feedback_plan then "write_plan" else "END"

/-- The nodes of the compiled main graph (the `Send` superstep that runs
every dialogue sub-execution is one node here), plus terminal/failure
markers. -/
inductive MainNode where
  | start
  | weatherInfo
  | createTravelers
  | feedbackNode
  | fanout
  | writePlan
  | finished
  | failed
deriving DecidableEq, Repr

/-- The conditional edge out of `human_feedback_traveler_node` (line 560):
follow the router's verdict. -/
def routeNode (s : MState) : MainNode :=
  match conduct_dialogue_router s with
  | .goto _ => .createTravelers
  | .sends _ => .fanout

/-- `write_section`'s contribution to the parent state (lines 401-415): the
parent schema keeps only the `sections` channel of `dialogueOutputState`,
and `write_section` returns exactly one section string per sub-execution. -/
def write_section (o : Oracle) (t : Traveler) : MUpdate :=
  { sections := [o.genSection t] }

/-- The join barrier of the fan-out superstep: the outputs of all spawned
sub-executions, one per traveler, merged into the parent state in task
order before the next node runs. -/
def fanoutMerge (o : Oracle) (s : MState) : MState :=
  ((pyGetD s.travelers []).map (write_section o)).foldl mergeMain s

/-- Small-step execution of the compiled main graph (builder lines
547-566).  A configuration is the node about to run paired with the current
state.  `interrupt_before=['human_feedback_traveler_node']` is modelled by
the two `inject` steps: while suspended at the feedback node, the external
actor may update the feedback keys via `update_state` (spec §4.2/§4.6);
`resume` then executes the no-op node and follows the conditional edge.
The `Send` superstep (`fanout`) runs all sub-executions and merges all
their outputs before `write_plan` becomes current, which is LangGraph's
superstep/join-barrier semantics for the unconditional edge at line 561. -/
inductive MainStep (o : Oracle) : MainNode × MState → MainNode × MState → Prop where
  | start (s : MState) : MainStep o (.start, s) (.weatherInfo, s)
  | weather (s : MState) :
      MainStep o (.weatherInfo, s)
        (.createTravelers, mergeMain s (get_weather_info o.env s))
  | createOk (s : MState) (u : MUpdate) (h : create_travelers o s = .ok u) :
      MainStep o (.createTravelers, s) (.feedbackNode, mergeMain s u)
  | createErr (s : MState) (e : PyErr) (h : create_travelers o s = .error e) :
      MainStep o (.createTravelers, s) (.failed, s)
  | injectTravelerFeedback (s : MState) (v : Option String) :
      MainStep o (.feedbackNode, s)
        (.feedbackNode, { s with human_feedback_traveler := v })
  | injectPlanFeedback (s : MState) (v : Option String) :
      MainStep o (.feedbackNode, s)
        (.feedbackNode, { s with human_feedback_plan := v })
  | resume (s : MState) : MainStep o (.feedbackNode, s) (routeNode s, s)
  | fanout (s : MState) : MainStep o (.fanout, s) (.writePlan, fanoutMerge o s)
  | planOk (s : MState) (u : MUpdate) (h : write_plan o s = .ok u) :
      MainStep o (.writePlan, s) (.finished, mergeMain s u)
  | planErr (s : MState) (e : PyErr) (h : write_plan o s = .error e) :
      MainStep o (.writePlan, s) (.failed, s)

/-- Steps of a run in which plan feedback is never supplied: every step of
the graph itself qualifies (no node writes `human_feedback_plan`), only the
external `injectPlanFeedback` action is excluded. -/
def NoFPStep (o : Oracle) (c c' : MainNode × MState) : Prop :=
  MainStep o c c' ∧ c'.2.human_feedback_plan = c.2.human_feedback_plan

/-! ## Concrete demonstration run (used by witnesses and counterexamples) -/

/-- Two concrete personas, standing for a structured-output result. -/
def demoTravelers : List Traveler :=
  [⟨"Alice", "art and museums"⟩, ⟨"Bob", "street food"⟩]

/-- A degraded environment: no API key, both HTTP services down. -/
def demoEnv : WeatherEnv :=
  { key := ""
    nominatim := fun _ => .error (.serviceError "connection refused")
    forecast := fun _ _ => .error (.serviceError "connection refused")
    setOrder := dedupFirst }

/-- Concrete collaborator oracle for the demonstration run. -/
def demoOracle : Oracle :=
  { env := demoEnv
    genTravelers := fun _ => demoTravelers
    genSection := fun t => "### Summary for " ++ t.name
    genPlan := fun city _ _ _ _ => "Travel plan for " ++ city }

/-- The initial state of `start_run("Kyoto", 3, 2)`: user-supplied fields
only, feedback never provided. -/
def demoInit : MState :=
  { city := some "Kyoto", weather := none, days := some 3,
    max_travelers := some 2, human_feedback_traveler := none,
    human_feedback_plan := none, travelers := none, sections := [],
    content := none, final_plan := none }

/-- Spec-side per-date record: the samples of one calendar date, in input
order (used to state what the grouping loop must produce). -/
def groupRec (samples : List Sample) (d : String) : DayRec :=
  ⟨(samples.filter fun x => x.date = d).map Sample.temp,
   (samples.filter fun x => x.date = d).map Sample.desc,
   (samples.filter fun x => x.date = d).map Sample.pop⟩

/-- Reachability along main-graph steps. -/
def Reach (o : Oracle) : MainNode × MState → MainNode × MState → Prop :=
  Relation.ReflTransGen (MainStep o)

/-- Reachability along steps that never supply plan feedback. -/
def ReachNoFP (o : Oracle) : MainNode × MState → MainNode × MState → Prop :=
  Relation.ReflTransGen (NoFPStep o)

/-- Invariant for the join barrier: before the fan-out superstep the
`sections` channel is empty; when `write_plan` is about to run it holds
exactly the one section each traveler's sub-execution contributed. -/
def sectionsInv (o : Oracle) (c : MainNode × MState) : Prop :=
  match c.1 with
  | .start | .weatherInfo | .createTravelers | .feedbackNode | .fanout =>
      c.2.sections = []
  | .writePlan => c.2.sections = (pyGetD c.2.travelers []).map o.genSection
  | .finished | .failed => True

/-- State after `get_weather_info`. -/
def demoAfterWeather : MState := mergeMain demoInit (get_weather_info demoEnv demoInit)

/-- State after `create_travelers`. -/
def demoAfterCreate : MState :=
  mergeMain demoAfterWeather { travelers := some demoTravelers }

/-- State immediately before `write_plan`, after the fan-out join. -/
def demoPrePlan : MState := fanoutMerge demoOracle demoAfterCreate

/-! # Theorems -/

/-! ## Dialogue-loop lemmas -/

theorem countResponses_append (name : String) (l l' : List Msg) :
    countResponses name (l ++ l') = countResponses name l + countResponses name l' := by
  simp [countResponses, List.filter_append]

theorem interviewerTurns_append (l l' : List Msg) :
    interviewerTurns (l ++ l') = interviewerTurns l + interviewerTurns l' := by
  simp [interviewerTurns, List.filter_append]

theorem countResponses_convo (seed : Msg) (q a : ℕ → String)
    (hseed : seed.role = Role.human) (k : ℕ) :
    countResponses "local" (convo seed q a k) = k := by
  induction k with
  | zero => simp [convo, countResponses, List.filter_cons, hseed]
  | succ n ih =>
      rw [convo, countResponses_append, ih]
      simp [countResponses, List.filter_cons, mkQuestion, mkAnswer]

theorem interviewerTurns_convo (seed : Msg) (q a : ℕ → String)
    (hseed : seed.role = Role.human) (k : ℕ) :
    interviewerTurns (convo seed q a k) = k := by
  induction k with
  | zero => simp [convo, interviewerTurns, List.filter_cons, hseed]
  | succ n ih =>
      rw [convo, interviewerTurns_append, ih]
      simp [interviewerTurns, List.filter_cons, mkQuestion, mkAnswer]

theorem pyPenult_append_pair (l : List Msg) (x y : Msg) :
    pyPenult (l ++ [x, y]) = .ok x := by
  have hlen : (l ++ [x, y]).length = l.length + 2 := by simp
  have h2 : 2 ≤ (l ++ [x, y]).length := by omega
  rw [pyPenult, dif_pos h2]
  congr 1
  have hidx : (l ++ [x, y]).length - 2 = l.length := by omega
  have : (l ++ [x, y]).get ⟨(l ++ [x, y]).length - 2, by omega⟩
      = (l ++ [x, y]).get ⟨l.length, by simp⟩ := by
    congr 1
    exact Fin.ext hidx
  rw [this]
  simp [List.getElem_append_right]

theorem pyPenult_convo_succ (seed : Msg) (q a : ℕ → String) (k : ℕ) :
    pyPenult (convo seed q a (k + 1)) = .ok (mkQuestion (q k)) := by
  rw [convo]; exact pyPenult_append_pair _ _ _

theorem route_messages_convo_lt (seed : Msg) (q a : ℕ → String) (maxT : ℤ)
    (hseed : seed.role = Role.human)
    (hq : ∀ i, strContains (q i) closingPhrase = false)
    (k : ℕ) (h1 : 1 ≤ k) (h2 : (k : ℤ) < maxT) :
    route_messages (convo seed q a k) maxT = .ok "ask_question" := by
  obtain ⟨n, rfl⟩ : ∃ n, k = n + 1 := ⟨k - 1, by omega⟩
  rw [route_messages, countResponses_convo seed q a hseed,
    if_neg (by omega), pyPenult_convo_succ]
  simp [mkQuestion, hq n]

theorem route_messages_convo_max (seed : Msg) (q a : ℕ → String) (maxT : ℤ)
    (hseed : seed.role = Role.human) (k : ℕ) (h : maxT ≤ (k : ℤ)) :
    route_messages (convo seed q a k) maxT = .ok "save_dialogue" := by
  rw [route_messages, countResponses_convo seed q a hseed, if_pos (by omega)]

theorem route_messages_of_penult (messages : List Msg) (maxT : ℤ) (m : Msg)
    (hc : ¬ (countResponses "local" messages : ℤ) ≥ maxT)
    (hp : pyPenult messages = .ok m) :
    route_messages messages maxT =
      (if strContains m.content closingPhrase then (.ok "save_dialogue" : Except PyErr String)
       else .ok "ask_question") := by
  rw [route_messages, if_neg hc, hp]

/-! ## Claims C3 and C4 -/

/-- C3: in any run of the interview loop whose interviewer questions never
contain the closing phrase, `route_messages` keeps returning the ask branch
while the turn count is below the configured maximum and returns the conclude
branch (`save_dialogue`) exactly when `max_turns` interviewer turns have
happened; the count it relies on (`num_responses`) is monotonically
non-decreasing in the number of loop cycles and stays bounded by the
configured maximum, so the loop terminates.  (The program always configures
`max_num_turns = 2`; the theorem covers every positive configuration.) -/
theorem claim3_interview_loop_terminates (seed : Msg) (q a : ℕ → String) (maxT : ℤ)
    (hseed : seed.role = Role.human)
    (hq : ∀ i, strContains (q i) closingPhrase = false)
    (_hmax : 1 ≤ maxT) :
    (∀ k : ℕ, 1 ≤ k → (k : ℤ) < maxT →
        route_messages (convo seed q a k) maxT = .ok "ask_question") ∧
    (∀ k : ℕ, (k : ℤ) = maxT →
        route_messages (convo seed q a k) maxT = .ok "save_dialogue" ∧
        (interviewerTurns (convo seed q a k) : ℤ) = maxT) ∧
    (∀ j k : ℕ, j ≤ k →
        countResponses "local" (convo seed q a j) ≤
          countResponses "local" (convo seed q a k)) ∧
    (∀ k : ℕ, (k : ℤ) ≤ maxT →
        (countResponses "local" (convo seed q a k) : ℤ) ≤ maxT) := by
  refine ⟨fun k h1 h2 => route_messages_convo_lt seed q a maxT hseed hq k h1 h2,
    fun k hk => ⟨route_messages_convo_max seed q a maxT hseed k (le_of_eq hk.symm), ?_⟩,
    fun j k hjk => ?_, fun k hk => ?_⟩
  · rw [interviewerTurns_convo seed q a hseed k]; exact hk
  · rw [countResponses_convo seed q a hseed, countResponses_convo seed q a hseed]
    exact hjk
  · rw [countResponses_convo seed q a hseed]; exact hk

/-- Witness for C3 at the program's configured maximum of 2 turns. -/
theorem claim3_witness :
    route_messages
        (convo ⟨Role.human, none, "So you said you plan to have a trip on Kyoto?"⟩
          (fun _ => "What should I see?") (fun _ => "The old town.") 2) 2
      = .ok "save_dialogue" ∧
    route_messages
        (convo ⟨Role.human, none, "So you said you plan to have a trip on Kyoto?"⟩
          (fun _ => "What should I see?") (fun _ => "The old town.") 1) 2
      = .ok "ask_question" := by
  have h := claim3_interview_loop_terminates
    ⟨Role.human, none, "So you said you plan to have a trip on Kyoto?"⟩
    (fun _ => "What should I see?") (fun _ => "The old town.") 2
    rfl (fun _ => by show strContains "What should I see?" closingPhrase = false; rfl)
    (by norm_num)
  exact ⟨(h.2.1 2 (by norm_num)).1, h.1 1 (by norm_num) (by norm_num)⟩

/-- C4 (amended): on any dialogue state with at least two messages,
`route_messages` returns the conclude branch exactly when the responder turn
count has reached the configured maximum or the penultimate message (the most
recent interviewer message, in every state the dialogue graph routes from)
contains the closing phrase, and the ask branch otherwise; on a state with
fewer than two messages and a turn count below the maximum it raises
`IndexError` from `messages[-2]` instead of routing. -/
theorem claim4_route_messages_condition (messages : List Msg) (maxT : ℤ) :
    (∀ h : 2 ≤ messages.length,
      (route_messages messages maxT = .ok "save_dialogue" ↔
        (maxT ≤ (countResponses "local" messages : ℤ) ∨
          strContains (messages.get ⟨messages.length - 2, by omega⟩).content
            closingPhrase = true)) ∧
      (route_messages messages maxT = .ok "ask_question" ↔
        ¬(maxT ≤ (countResponses "local" messages : ℤ) ∨
          strContains (messages.get ⟨messages.length - 2, by omega⟩).content
            closingPhrase = true))) ∧
    (messages.length < 2 → (countResponses "local" messages : ℤ) < maxT →
      route_messages messages maxT = .error .indexError) := by
  constructor
  · intro h
    have hpen : pyPenult messages = .ok (messages.get ⟨messages.length - 2, by omega⟩) := by
      rw [pyPenult, dif_pos h]
    by_cases hc : (countResponses "local" messages : ℤ) ≥ maxT
    · rw [route_messages, if_pos hc]
      simp [hc]
    · rw [route_messages_of_penult messages maxT _ hc hpen]
      by_cases hs : strContains (messages.get ⟨messages.length - 2, by omega⟩).content
          closingPhrase = true
      · rw [if_pos hs]
        simp only [List.get_eq_getElem] at hs
        simp [hs]
      · rw [if_neg hs]
        simp only [List.get_eq_getElem] at hs
        simp [hs, hc]
  · intro hlen hc
    rw [route_messages, if_neg (by omega), pyPenult, dif_neg (by omega)]

/-- Witness for C4 on a concrete reachable-shaped state. -/
theorem claim4_witness :
    route_messages [mkQuestion "Where should I eat?", mkAnswer "Try the market."] 1
      = .ok "save_dialogue" := by
  have h := claim4_route_messages_condition
    [mkQuestion "Where should I eat?", mkAnswer "Try the market."] 1
  exact ((h.1 (by decide)).1).mpr (Or.inl (by decide))

/-- C4 counterexample: on the dialogue state with no messages and
`max_num_turns = 1`, neither terminal condition holds, yet `route_messages`
raises `IndexError` instead of returning the ask branch as the claim states. -/
theorem claim4_counterexample :
    (countResponses "local" ([] : List Msg) : ℤ) < 1 ∧
    route_messages ([] : List Msg) 1 = .error .indexError ∧
    route_messages ([] : List Msg) 1 ≠ .ok "ask_question" := by
  refine ⟨by decide, by decide, by decide⟩

/-! ## State-merge algebra (claim C6) -/

theorem updField_assoc {α : Type} (s a b : Option α) :
    updField (updField s a) b = updField s (updField a b) := by
  cases b <;> rfl

theorem updField_none {α : Type} (s : Option α) : updField s none = s := rfl

/-- C6: the State Store merge is associative — applying two partial updates
in sequence equals applying their concatenation — and on the append-only
channels (`sections`, `context`, `messages`) it concatenates the update
behind the existing entries, preserving both orders, while every field the
update does not carry is left untouched.  The same holds for the main
workflow state's merge. -/
theorem claim6_merge_associative (s : DState) (a b : DUpdate)
    (ha : a.appendOnly) (hb : b.appendOnly) :
    mergeD (mergeD s a) b = mergeD s (concatD a b) ∧
    concatD a b =
      { messages := a.messages ++ b.messages
        context := a.context ++ b.context
        sections := a.sections ++ b.sections } ∧
    (mergeD s a).sections = s.sections ++ a.sections ∧
    (mergeD s a).context = s.context ++ a.context ∧
    (mergeD s a).messages = s.messages ++ a.messages ∧
    (mergeD s a).max_num_turns = s.max_num_turns ∧
    (mergeD s a).traveler = s.traveler ∧
    (mergeD s a).dialogue = s.dialogue ∧
    (mergeD s a).city = s.city ∧
    (∀ (s2 : MState) (a2 b2 : MUpdate), a2.appendOnly → b2.appendOnly →
      mergeMain (mergeMain s2 a2) b2 = mergeMain s2 (concatMainU a2 b2) ∧
      (mergeMain s2 a2).sections = s2.sections ++ a2.sections ∧
      (mergeMain s2 a2).human_feedback_plan = s2.human_feedback_plan) := by
  obtain ⟨ha1, ha2, ha3, ha4⟩ := ha
  obtain ⟨hb1, hb2, hb3, hb4⟩ := hb
  refine ⟨?_, ?_, rfl, rfl, rfl, ?_, ?_, ?_, ?_, ?_⟩
  · simp [mergeD, concatD, updField_assoc]
  · simp [concatD, ha1, ha2, ha3, ha4, hb1, hb2, hb3, hb4, updField]
  · simp [mergeD, ha1, updField]
  · simp [mergeD, ha2, updField]
  · simp [mergeD, ha3, updField]
  · simp [mergeD, ha4, updField]
  · intro s2 a2 b2 ha' hb'
    obtain ⟨-, -, -, -, -, ha6', -, -, -⟩ := ha'
    refine ⟨?_, rfl, ?_⟩
    · simp [mergeMain, concatMainU, updField_assoc]
    · simp [mergeMain, ha6', updField]

/-- Witness for C6 on concrete states and append-only updates. -/
theorem claim6_witness :
    DUpdate.appendOnly { sections := ["sec a"] } ∧
    DUpdate.appendOnly { context := ["ctx b"] } ∧
    mergeD (mergeD ⟨[], none, [], none, none, ["s0"], none⟩ { sections := ["sec a"] })
        { context := ["ctx b"] }
      = mergeD ⟨[], none, [], none, none, ["s0"], none⟩
          (concatD { sections := ["sec a"] } { context := ["ctx b"] }) := by
  have h := claim6_merge_associative ⟨[], none, [], none, none, ["s0"], none⟩
    { sections := ["sec a"] } { context := ["ctx b"] } (by decide) (by decide)
  exact ⟨by decide, by decide, h.1⟩

/-! ## The persona-feedback router (claim C2) -/

/-- C2: for every main-workflow state, the router after the
persona-feedback interrupt returns the persona-generation node
`create_travelers` exactly when the traveler feedback text is truthy
(non-empty); when the feedback is empty or absent it returns one
`Send("conduct_dialogue_sub", ...)` task per element of the travelers list
(in order, carrying that traveler), the conditional edge continues to the
fan-out superstep, and no step out of the suspended feedback node can
re-enter `create_travelers`. -/
theorem claim2_conduct_dialogue_router (s : MState) :
    (pyTruthy s.human_feedback_traveler = true →
      conduct_dialogue_router s = .goto "create_travelers" ∧
      routeNode s = .createTravelers) ∧
    (pyTruthy s.human_feedback_traveler = false →
      (∃ tasks : List SendTask,
        conduct_dialogue_router s = .sends tasks ∧
        tasks.length = (pyGetD s.travelers []).length ∧
        (∀ (i : ℕ) (hi : i < tasks.length) (hj : i < (pyGetD s.travelers []).length),
          (tasks.get ⟨i, hi⟩).traveler = (pyGetD s.travelers []).get ⟨i, hj⟩ ∧
          (tasks.get ⟨i, hi⟩).target = "conduct_dialogue_sub")) ∧
      routeNode s = .fanout ∧
      (∀ (o : Oracle) (c' : MainNode × MState),
        MainStep o (.feedbackNode, s) c' → c'.1 ≠ .createTravelers)) := by
  constructor
  · intro ht
    have h1 : conduct_dialogue_router s = .goto "create_travelers" := by
      rw [conduct_dialogue_router, if_pos ht]
    exact ⟨h1, by rw [routeNode, h1]⟩
  · intro hf
    have h1 : conduct_dialogue_router s = .sends ((pyGetD s.travelers []).map (sendFor s)) := by
      rw [conduct_dialogue_router, if_neg (by rw [hf]; exact Bool.false_ne_true)]
    have h2 : routeNode s = .fanout := by rw [routeNode, h1]
    refine ⟨⟨(pyGetD s.travelers []).map (sendFor s), h1, by simp, ?_⟩, h2, ?_⟩
    · intro i hi hj
      constructor <;> simp [sendFor]
    · intro o c' hstep
      cases hstep with
      | injectTravelerFeedback s v => simp
      | injectPlanFeedback s v => simp
      | resume s => rw [h2]; simp

/-- Witness for C2: resuming the demonstration run with no feedback
produces one fan-out task per traveler and proceeds to the fan-out node. -/
theorem claim2_witness :
    pyTruthy demoAfterCreate.human_feedback_traveler = false ∧
    (∃ tasks : List SendTask,
      conduct_dialogue_router demoAfterCreate = .sends tasks ∧
      tasks.length = (pyGetD demoAfterCreate.travelers []).length) ∧
    routeNode demoAfterCreate = .fanout := by
  have h := (claim2_conduct_dialogue_router demoAfterCreate).2 rfl
  obtain ⟨⟨tasks, h1, h2, -⟩, h3, -⟩ := h
  exact ⟨rfl, ⟨tasks, h1, h2⟩, h3⟩

/-! ## Main-graph node lemmas -/

theorem create_travelers_shape (o : Oracle) (s : MState) :
    create_travelers o s = .ok { travelers := some (o.genTravelers s) } ∨
    ∃ e, create_travelers o s = .error e := by
  unfold create_travelers
  rcases s.city with _ | c <;> rcases s.weather with _ | w <;>
    rcases s.days with _ | d <;> rcases s.max_travelers with _ | m <;>
      simp [pyIndex, Bind.bind, Except.bind, Pure.pure, Except.pure]

theorem write_plan_missing (o : Oracle) (s : MState)
    (h : s.days = none ∨ s.city = none ∨ s.weather = none ∨
      s.human_feedback_plan = none) :
    ∃ k, write_plan o s = .error (.keyError k) ∧
      k ∈ (["days", "city", "weather", "human_feedback_plan"] : List String) := by
  unfold write_plan
  rcases hd : s.days with _ | d <;> rcases hc : s.city with _ | c <;>
    rcases hw : s.weather with _ | w <;>
      rcases hp : s.human_feedback_plan with _ | p <;>
        simp [pyIndex, Bind.bind, Except.bind, Pure.pure, Except.pure] <;>
          first
          | exact ⟨"days", rfl, by decide⟩
          | exact ⟨"city", rfl, by decide⟩
          | exact ⟨"weather", rfl, by decide⟩
          | exact ⟨"human_feedback_plan", rfl, by decide⟩
          | (rw [hd, hc, hw, hp] at h; simp at h)

theorem write_plan_hfp_keyerror (o : Oracle) (s : MState)
    (hp : s.human_feedback_plan = none) (hd : s.days ≠ none)
    (hc : s.city ≠ none) (hw : s.weather ≠ none) :
    write_plan o s = .error (.keyError "human_feedback_plan") := by
  unfold write_plan
  rcases hd' : s.days with _ | d
  · exact absurd hd' hd
  rcases hc' : s.city with _ | c
  · exact absurd hc' hc
  rcases hw' : s.weather with _ | w
  · exact absurd hw' hw
  rw [hp]
  simp [pyIndex, Bind.bind, Except.bind]

theorem mergeMain_sections (s : MState) (u : MUpdate) :
    (mergeMain s u).sections = s.sections ++ u.sections := rfl

theorem mergeMain_write_section (o : Oracle) (t : Traveler) (s : MState) :
    mergeMain s (write_section o t) =
      { s with sections := s.sections ++ [o.genSection t] } := by
  simp [mergeMain, write_section, updField_none]

theorem foldl_mergeMain_sections (o : Oracle) (ts : List Traveler) (s : MState) :
    (ts.map (write_section o)).foldl mergeMain s
      = { s with sections := s.sections ++ ts.map o.genSection } := by
  induction ts generalizing s with
  | nil => simp
  | cons t ts ih =>
      rw [List.map_cons, List.foldl_cons, mergeMain_write_section, ih]
      simp

theorem fanoutMerge_eq (o : Oracle) (s : MState) :
    fanoutMerge o s =
      { s with sections := s.sections ++ (pyGetD s.travelers []).map o.genSection } := by
  rw [fanoutMerge, foldl_mergeMain_sections]

theorem fanoutMerge_travelers (o : Oracle) (s : MState) :
    (fanoutMerge o s).travelers = s.travelers := by
  rw [fanoutMerge_eq]

theorem routeNode_cases (s : MState) :
    routeNode s = .createTravelers ∨ routeNode s = .fanout := by
  rw [routeNode]
  cases conduct_dialogue_router s with
  | goto n => exact Or.inl rfl
  | sends l => exact Or.inr rfl

/-! ## The join-barrier invariant (claim C7) -/

theorem sectionsInv_step (o : Oracle) (c c' : MainNode × MState)
    (hstep : MainStep o c c') (hinv : sectionsInv o c) : sectionsInv o c' := by
  cases hstep with
  | start s => exact hinv
  | weather s =>
      simp only [sectionsInv] at hinv ⊢
      rw [mergeMain_sections, hinv]
      rfl
  | createOk s u h =>
      simp only [sectionsInv] at hinv ⊢
      rcases create_travelers_shape o s with hs | ⟨e, hs⟩
      · rw [h] at hs
        cases hs
        rw [mergeMain_sections, hinv]
        rfl
      · rw [h] at hs
        cases hs
  | createErr s e h => trivial
  | injectTravelerFeedback s v => exact hinv
  | injectPlanFeedback s v => exact hinv
  | resume s =>
      rcases routeNode_cases s with hr | hr <;> rw [hr] <;>
        simpa [sectionsInv] using hinv
  | fanout s =>
      simp only [sectionsInv] at hinv ⊢
      rw [fanoutMerge_eq]
      simp [hinv]
  | planOk s u h => trivial
  | planErr s e h => trivial

theorem sectionsInv_reach (o : Oracle) (c c' : MainNode × MState)
    (h : Reach o c c') (hinv : sectionsInv o c) : sectionsInv o c' := by
  induction h with
  | refl => exact hinv
  | tail _ hstep ih => exact sectionsInv_step o _ _ hstep ih

theorem mainStep_into_writePlan (o : Oracle) (c c' : MainNode × MState)
    (hstep : MainStep o c c') (h : c'.1 = .writePlan) :
    c.1 = .fanout ∧ c'.2 = fanoutMerge o c.2 := by
  cases hstep with
  | start s => cases h
  | weather s => cases h
  | createOk s u hu => cases h
  | createErr s e he => cases h
  | injectTravelerFeedback s v => cases h
  | injectPlanFeedback s v => cases h
  | resume s =>
      exfalso
      rcases routeNode_cases s with hr | hr <;> rw [hr] at h <;> cases h
  | fanout s => exact ⟨rfl, rfl⟩
  | planOk s u hu => cases h
  | planErr s e he => cases h

/-- C7: for any run of the compiled main graph started on an initial state
with an empty `sections` channel, whenever `write_plan` is about to run the
state contains exactly one merged section per traveler — `sections` has the
same length as the travelers list — and the only step that makes
`write_plan` current is the fan-out superstep with the outputs of all
spawned sub-executions already merged (the join barrier). -/
theorem claim7_join_barrier (o : Oracle) :
    (∀ init s : MState,
      Reach o (.start, init) (.writePlan, s) → init.sections = [] →
      s.sections = (pyGetD s.travelers []).map o.genSection ∧
      s.sections.length = (pyGetD s.travelers []).length) ∧
    (∀ c c' : MainNode × MState, MainStep o c c' → c'.1 = .writePlan →
      c.1 = .fanout ∧ c'.2 = fanoutMerge o c.2) := by
  constructor
  · intro init s hrun hinit
    have h := sectionsInv_reach o _ _ hrun (by simpa [sectionsInv] using hinit)
    simp only [sectionsInv] at h
    exact ⟨h, by rw [h, List.length_map]⟩
  · exact fun c c' => mainStep_into_writePlan o c c'

/-! ## The demonstration trace -/

theorem demoTraceNoFP :
    ReachNoFP demoOracle (.start, demoInit) (.writePlan, demoPrePlan) := by
  have s1 : NoFPStep demoOracle (.start, demoInit) (.weatherInfo, demoInit) :=
    ⟨MainStep.start demoInit, rfl⟩
  have s2 : NoFPStep demoOracle (.weatherInfo, demoInit)
      (.createTravelers, demoAfterWeather) :=
    ⟨MainStep.weather demoInit, rfl⟩
  have s3 : NoFPStep demoOracle (.createTravelers, demoAfterWeather)
      (.feedbackNode, demoAfterCreate) :=
    ⟨MainStep.createOk demoAfterWeather { travelers := some demoTravelers } rfl, rfl⟩
  have s4 : NoFPStep demoOracle (.feedbackNode, demoAfterCreate)
      (.fanout, demoAfterCreate) :=
    ⟨MainStep.resume demoAfterCreate, rfl⟩
  have s5 : NoFPStep demoOracle (.fanout, demoAfterCreate)
      (.writePlan, demoPrePlan) :=
    ⟨MainStep.fanout demoAfterCreate, rfl⟩
  exact .head s1 (.head s2 (.head s3 (.head s4 (.single s5))))

theorem demoTrace :
    Reach demoOracle (.start, demoInit) (.writePlan, demoPrePlan) :=
  Relation.ReflTransGen.mono (fun _ _ h => h.1) demoTraceNoFP

/-- Witness for C7 on the demonstration run with two travelers. -/
theorem claim7_witness :
    demoInit.sections = [] ∧
    demoPrePlan.sections = (pyGetD demoPrePlan.travelers []).map demoOracle.genSection ∧
    demoPrePlan.sections.length = 2 := by
  have h := (claim7_join_barrier demoOracle).1 demoInit demoPrePlan demoTrace rfl
  refine ⟨rfl, h.1, h.2.trans ?_⟩
  rfl

/-! ## Plan feedback is never written by the graph (claims C10 and C1) -/

theorem write_plan_error_of_hfp_none (o : Oracle) (s : MState)
    (hp : s.human_feedback_plan = none) :
    ∃ k, write_plan o s = .error (.keyError k) ∧
      k ∈ (["days", "city", "weather", "human_feedback_plan"] : List String) :=
  write_plan_missing o s (Or.inr (Or.inr (Or.inr hp)))

theorem reachNoFP_hfp (o : Oracle) (c c' : MainNode × MState)
    (h : ReachNoFP o c c') :
    c'.2.human_feedback_plan = c.2.human_feedback_plan := by
  induction h with
  | refl => rfl
  | tail _ hstep ih => exact hstep.2.trans ih

/-- C10: `write_plan` reads `days`, `sections`, `city`, `weather` and
`human_feedback_plan` by direct key indexing, so whenever any of those keys
is absent it raises a `KeyError` (for the first absent key in read order)
instead of treating the missing value as empty; and along any run of the
compiled graph in which plan feedback is never supplied externally, no node
ever writes `human_feedback_plan`, so reaching `write_plan` with the other
keys present raises exactly `KeyError("human_feedback_plan")`. -/
theorem claim10_write_plan_keyerror (o : Oracle) :
    (∀ s : MState,
      s.days = none ∨ s.city = none ∨ s.weather = none ∨
        s.human_feedback_plan = none →
      ∃ k, write_plan o s = .error (.keyError k) ∧
        k ∈ (["days", "city", "weather", "human_feedback_plan"] : List String)) ∧
    (∀ (init : MState) (c : MainNode × MState),
      ReachNoFP o (.start, init) c → init.human_feedback_plan = none →
      c.2.human_feedback_plan = none ∧
      (c.1 = .writePlan → c.2.days ≠ none → c.2.city ≠ none → c.2.weather ≠ none →
        write_plan o c.2 = .error (.keyError "human_feedback_plan"))) := by
  refine ⟨fun s h => write_plan_missing o s h, ?_⟩
  intro init c hreach hinit
  have hfp : c.2.human_feedback_plan = none := (reachNoFP_hfp o _ _ hreach).trans hinit
  exact ⟨hfp, fun _ hd hc hw => write_plan_hfp_keyerror o c.2 hfp hd hc hw⟩

/-- Witness for C10 on the demonstration run. -/
theorem claim10_witness :
    demoPrePlan.human_feedback_plan = none ∧
    write_plan demoOracle demoPrePlan = .error (.keyError "human_feedback_plan") := by
  have h := (claim10_write_plan_keyerror demoOracle).2 demoInit
    (.writePlan, demoPrePlan) demoTraceNoFP rfl
  refine ⟨h.1, h.2 rfl ?_ ?_ ?_⟩ <;> intro hcon <;> exact Option.noConfusion hcon

/-- C1 (the code violates the claimed no-op terminal policy): in the
demonstration run `human_feedback_plan` is never supplied, yet the compiled
graph reaches `write_plan` — the only edge out of the fan-out superstep
leads there unconditionally — and `write_plan` then raises
`KeyError("human_feedback_plan")`, so the run fails instead of ending at
the terminal marker without a plan.  The dead-code router
`initiate_all_plans` would indeed have returned `END` on this state, but it
is never registered on the builder. -/
theorem claim1_write_plan_runs_without_plan_feedback :
    ReachNoFP demoOracle (.start, demoInit) (.writePlan, demoPrePlan) ∧
    demoInit.human_feedback_plan = none ∧
    demoPrePlan.human_feedback_plan = none ∧
    MainStep demoOracle (.fanout, demoAfterCreate) (.writePlan, demoPrePlan) ∧
    write_plan demoOracle demoPrePlan = .error (.keyError "human_feedback_plan") ∧
    MainStep demoOracle (.writePlan, demoPrePlan) (.failed, demoPrePlan) ∧
    initiate_all_plans demoPrePlan = "END" := by
  have hw : write_plan demoOracle demoPrePlan = .error (.keyError "human_feedback_plan") :=
    write_plan_hfp_keyerror demoOracle demoPrePlan rfl
      (fun hcon => Option.noConfusion hcon) (fun hcon => Option.noConfusion hcon)
      (fun hcon => Option.noConfusion hcon)
  exact ⟨demoTraceNoFP, rfl, rfl, MainStep.fanout demoAfterCreate, hw,
    MainStep.planErr demoPrePlan _ hw, rfl⟩

/-! ## Graceful degradation of the forecast lookup (claim C8) -/

/-- C8: whenever the API key is unset or the geocoding/forecast fetch
fails, `get_weather` returns a single-element list holding an error-marker
record instead of raising, and `get_weather_info` stores exactly that
marker list into the `weather` field of the state — after the merge the
state carries it as-is — while the graph proceeds to `create_travelers`
rather than failing. -/
theorem claim8_weather_degradation (env : WeatherEnv) (s : MState)
    (hfail : env.key = "" ∨ ∃ e, fetchSamples env (pyGetD s.city "tokyo") = .error e) :
    ∃ msg,
      get_weather env (pyGetD s.city "tokyo") (pyGetD s.days 5) = [.errorMarker msg] ∧
      get_weather_info env s = { weather := some [.errorMarker msg] } ∧
      (mergeMain s (get_weather_info env s)).weather = some [.errorMarker msg] ∧
      ∀ o : Oracle, o.env = env →
        MainStep o (.weatherInfo, s)
          (.createTravelers, mergeMain s (get_weather_info env s)) := by
  by_cases hkey : env.key = ""
  · refine ⟨"OpenWeather API key not set", ?_, ?_, ?_, ?_⟩
    · rw [get_weather, if_pos hkey]
    · rw [get_weather_info, get_weather, if_pos hkey]
    · rw [get_weather_info, get_weather, if_pos hkey]; rfl
    · intro o ho
      rw [← ho]
      exact MainStep.weather s
  · rcases hfail with hk | ⟨e, he⟩
    · exact absurd hk hkey
    · refine ⟨"Failed to get weather information: " ++ e.message, ?_, ?_, ?_, ?_⟩
      · rw [get_weather, if_neg hkey, he]
      · rw [get_weather_info, get_weather, if_neg hkey, he]
      · rw [get_weather_info, get_weather, if_neg hkey, he]; rfl
      · intro o ho
        rw [← ho]
        exact MainStep.weather s

/-- Witness for C8: the demonstration environment has no API key. -/
theorem claim8_witness :
    (demoEnv.key = "" ∨
      ∃ e, fetchSamples demoEnv (pyGetD demoInit.city "tokyo") = .error e) ∧
    ∃ msg,
      get_weather demoEnv (pyGetD demoInit.city "tokyo") (pyGetD demoInit.days 5)
        = [.errorMarker msg] ∧
      (mergeMain demoInit (get_weather_info demoEnv demoInit)).weather
        = some [.errorMarker msg] := by
  have h := claim8_weather_degradation demoEnv demoInit (Or.inl rfl)
  obtain ⟨msg, h1, -, h3, -⟩ := h
  exact ⟨Or.inl rfl, msg, h1, h3⟩

/-! ## Sorting lemmas for the aggregation (claim C5) -/

theorem insertPairAsc_perm (p : String × DayRec) (l : List (String × DayRec)) :
    (insertPairAsc p l).Perm (p :: l) := by
  induction l with
  | nil => simp [insertPairAsc]
  | cons q qs ih =>
      simp only [insertPairAsc]
      split_ifs with h
      · exact List.Perm.refl _
      · exact (ih.cons q).trans (List.Perm.swap p q qs)

theorem insertPairAsc_pairwise (p : String × DayRec) (l : List (String × DayRec))
    (h : l.Pairwise (fun x y => x.1 ≤ y.1)) :
    (insertPairAsc p l).Pairwise (fun x y => x.1 ≤ y.1) := by
  induction l with
  | nil => simp [insertPairAsc]
  | cons q qs ih =>
      rw [List.pairwise_cons] at h
      simp only [insertPairAsc]
      split_ifs with hpq
      · rw [List.pairwise_cons]
        refine ⟨?_, List.pairwise_cons.mpr h⟩
        intro x hx
        rcases List.mem_cons.mp hx with rfl | hx'
        · exact hpq
        · exact le_trans hpq (h.1 x hx')
      · rw [List.pairwise_cons]
        refine ⟨?_, ih h.2⟩
        intro x hx
        rcases List.mem_cons.mp ((insertPairAsc_perm p qs).mem_iff.mp hx) with rfl | hxq
        · exact le_of_lt (not_le.mp hpq)
        · exact h.1 x hxq

theorem sortPairsAsc_perm (l : List (String × DayRec)) : (sortPairsAsc l).Perm l := by
  induction l with
  | nil => simp [sortPairsAsc]
  | cons p ps ih =>
      simp only [sortPairsAsc, List.foldr_cons]
      exact (insertPairAsc_perm p _).trans (ih.cons p)

theorem sortPairsAsc_pairwise (l : List (String × DayRec)) :
    (sortPairsAsc l).Pairwise (fun x y => x.1 ≤ y.1) := by
  induction l with
  | nil => simp [sortPairsAsc]
  | cons p ps ih =>
      simp only [sortPairsAsc, List.foldr_cons] at ih ⊢
      exact insertPairAsc_pairwise p _ ih

/-! ## Grouping lemmas: the `daily` dict holds the filtered samples -/

theorem addSample_nil (s : Sample) :
    addSample [] s = [(s.date, ⟨[s.temp], [s.desc], [s.pop]⟩)] := rfl

theorem addSample_cons (a : String) (r : DayRec) (rest : List (String × DayRec))
    (s : Sample) :
    addSample ((a, r) :: rest) s =
      if a = s.date then
        (a, ⟨r.temps ++ [s.temp], r.descs ++ [s.desc], r.pops ++ [s.pop]⟩) :: rest
      else (a, r) :: addSample rest s := rfl

theorem alookup_nil (d : String) : alookup d [] = none := rfl

theorem alookup_cons (a : String) (r : DayRec) (rest : List (String × DayRec))
    (d : String) :
    alookup d ((a, r) :: rest) = if a = d then some r else alookup d rest := rfl

theorem alookup_addSample (g : List (String × DayRec)) (s : Sample) (d : String) :
    alookup d (addSample g s) =
      if s.date = d then some (pushRec (alookup d g) s) else alookup d g := by
  induction g with
  | nil =>
      rw [addSample_nil, alookup_cons, alookup_nil]
      by_cases h : s.date = d
      · rw [if_pos h, if_pos h]
        rfl
      · rw [if_neg h, if_neg h]
  | cons pr rest ih =>
      obtain ⟨a, r⟩ := pr
      rw [addSample_cons]
      by_cases hks : a = s.date
      · rw [if_pos hks, alookup_cons, alookup_cons]
        by_cases had : a = d
        · have hsd : s.date = d := hks ▸ had
          rw [if_pos had, if_pos had, if_pos hsd]
          rfl
        · have hsd : ¬ s.date = d := fun h => had (hks.trans h)
          rw [if_neg had, if_neg had, if_neg hsd]
      · rw [if_neg hks, alookup_cons, alookup_cons]
        by_cases had : a = d
        · have hsd : ¬ s.date = d := fun h => hks (had.trans h.symm)
          rw [if_pos had, if_pos had, if_neg hsd]
        · rw [if_neg had, if_neg had, ih]

theorem groupByDate_snoc (l : List Sample) (s : Sample) :
    groupByDate (l ++ [s]) = addSample (groupByDate l) s := by
  simp [groupByDate, List.foldl_append]

theorem alookup_groupByDate (samples : List Sample) (d : String) :
    alookup d (groupByDate samples) =
      if (samples.filter fun x => x.date = d) = [] then none
      else some (groupRec samples d) := by
  induction samples using List.reverseRecOn with
  | nil => simp [groupByDate, alookup]
  | append_singleton l s ih =>
      rw [groupByDate_snoc, alookup_addSample, ih]
      by_cases hsd : s.date = d
      · rw [if_pos hsd]
        have hfil : ((l ++ [s]).filter fun x => x.date = d)
            = (l.filter fun x => x.date = d) ++ [s] := by
          simp [List.filter_append, hsd]
        have hne : ¬ ((l ++ [s]).filter fun x => x.date = d) = [] := by
          rw [hfil]
          simp
        rw [if_neg hne]
        by_cases hl : (l.filter fun x => x.date = d) = []
        · rw [if_pos hl]
          simp [pushRec, groupRec, hfil, hl]
        · rw [if_neg hl]
          simp [pushRec, groupRec, hfil]
      · rw [if_neg hsd]
        have hfil : ((l ++ [s]).filter fun x => x.date = d)
            = l.filter fun x => x.date = d := by
          simp [List.filter_append, hsd]
        have hgr : groupRec (l ++ [s]) d = groupRec l d := by
          simp [groupRec, hfil]
        rw [hfil, hgr]

theorem keys_addSample_mem (g : List (String × DayRec)) (s : Sample)
    (h : s.date ∈ g.map Prod.fst) :
    (addSample g s).map Prod.fst = g.map Prod.fst := by
  induction g with
  | nil => cases h
  | cons pr rest ih =>
      obtain ⟨k, r⟩ := pr
      rw [addSample_cons]
      by_cases hks : k = s.date
      · rw [if_pos hks, List.map_cons, List.map_cons]
      · rw [if_neg hks, List.map_cons, List.map_cons]
        have h' : s.date ∈ rest.map Prod.fst := by
          rcases List.mem_cons.mp h with heq | hm
          · exact absurd heq.symm hks
          · exact hm
        rw [ih h']

theorem keys_addSample_not_mem (g : List (String × DayRec)) (s : Sample)
    (h : s.date ∉ g.map Prod.fst) :
    (addSample g s).map Prod.fst = g.map Prod.fst ++ [s.date] := by
  induction g with
  | nil => rfl
  | cons pr rest ih =>
      obtain ⟨k, r⟩ := pr
      rw [addSample_cons]
      have hks : ¬ k = s.date := by
        intro heq
        exact h (by rw [List.map_cons]; exact List.mem_cons.mpr (Or.inl heq.symm))
      rw [if_neg hks, List.map_cons, List.map_cons]
      have h' : s.date ∉ rest.map Prod.fst := by
        intro hm
        exact h (by rw [List.map_cons]; exact List.mem_cons.mpr (Or.inr hm))
      rw [ih h']
      rfl

theorem keys_addSample_nodup (g : List (String × DayRec)) (s : Sample)
    (h : (g.map Prod.fst).Nodup) : ((addSample g s).map Prod.fst).Nodup := by
  by_cases hm : s.date ∈ g.map Prod.fst
  · rw [keys_addSample_mem g s hm]
    exact h
  · rw [keys_addSample_not_mem g s hm]
    simp [List.nodup_append, h, hm]

theorem keys_groupByDate_nodup (samples : List Sample) :
    ((groupByDate samples).map Prod.fst).Nodup := by
  suffices h : ∀ g : List (String × DayRec), (g.map Prod.fst).Nodup →
      ((samples.foldl addSample g).map Prod.fst).Nodup by
    exact h [] (by simp)
  induction samples with
  | nil => intro g hg; exact hg
  | cons s rest ih =>
      intro g hg
      exact ih _ (keys_addSample_nodup g s hg)

theorem alookup_eq_none (g : List (String × DayRec)) (d : String) :
    alookup d g = none ↔ d ∉ g.map Prod.fst := by
  induction g with
  | nil => simp [alookup]
  | cons pr rest ih =>
      obtain ⟨k, r⟩ := pr
      simp only [alookup, List.map_cons, List.mem_cons]
      by_cases hkd : k = d
      · subst hkd
        simp
      · rw [if_neg hkd, ih]
        constructor
        · intro h hor
          rcases hor with heq | hmem
          · exact hkd heq.symm
          · exact h hmem
        · intro h hmem
          exact h (Or.inr hmem)

theorem alookup_of_mem (g : List (String × DayRec)) (d : String) (r : DayRec)
    (hnd : (g.map Prod.fst).Nodup) (hmem : (d, r) ∈ g) : alookup d g = some r := by
  induction g with
  | nil => cases hmem
  | cons pr rest ih =>
      obtain ⟨k, v⟩ := pr
      rw [List.map_cons, List.nodup_cons] at hnd
      rcases List.mem_cons.mp hmem with heq | hmem'
      · injection heq with h1 h2
        subst h1
        subst h2
        simp [alookup]
      · have hk : k ≠ d := by
          intro h
          apply hnd.1
          rw [h]
          show d ∈ List.map Prod.fst rest
          exact List.mem_map_of_mem Prod.fst hmem'
        rw [alookup_cons, if_neg hk]
        exact ih hnd.2 hmem'

theorem mem_keys_groupByDate (samples : List Sample) (d : String) :
    d ∈ (groupByDate samples).map Prod.fst ↔ d ∈ samples.map Sample.date := by
  have h1 : alookup d (groupByDate samples) = none ↔
      (samples.filter fun x => x.date = d) = [] := by
    rw [alookup_groupByDate]
    by_cases h : (samples.filter fun x => x.date = d) = []
    · rw [if_pos h]
      simp [h]
    · rw [if_neg h]
      simp [h]
  have h2 : ((samples.filter fun x => x.date = d) = []) ↔
      d ∉ samples.map Sample.date := by
    rw [List.filter_eq_nil_iff]
    constructor
    · intro h hmem
      obtain ⟨x, hx, hxd⟩ := List.mem_map.mp hmem
      have hx' := h x hx
      simp only [decide_eq_true_eq] at hx'
      exact hx' hxd
    · intro h x hx
      simp only [decide_eq_true_eq]
      intro hxd
      exact h (List.mem_map.mpr ⟨x, hx, hxd⟩)
  rw [← not_iff_not, ← alookup_eq_none, h1, h2]

/-! ## First-encounter deduplication and valid set orders -/

theorem mem_dedupFirstAux (l : List String) (seen : List String) (x : String) :
    x ∈ dedupFirstAux seen l ↔ x ∈ l ∧ x ∉ seen := by
  induction l generalizing seen with
  | nil => simp [dedupFirstAux]
  | cons hd tl ih =>
      simp only [dedupFirstAux]
      by_cases hh : hd ∈ seen
      · rw [if_pos hh, ih]
        constructor
        · rintro ⟨h1, h2⟩
          exact ⟨List.mem_cons_of_mem hd h1, h2⟩
        · rintro ⟨h1, h2⟩
          rcases List.mem_cons.mp h1 with rfl | h1'
          · exact absurd hh h2
          · exact ⟨h1', h2⟩
      · rw [if_neg hh]
        simp only [List.mem_cons]
        constructor
        · rintro (rfl | h)
          · exact ⟨Or.inl rfl, hh⟩
          · rw [ih] at h
            obtain ⟨h1, h2⟩ := h
            simp only [List.mem_cons, not_or] at h2
            exact ⟨Or.inr h1, h2.2⟩
        · rintro ⟨rfl | h1', h2⟩
          · exact Or.inl rfl
          · by_cases hxh : x = hd
            · exact Or.inl hxh
            · refine Or.inr ?_
              rw [ih]
              exact ⟨h1', by simp [hxh, h2]⟩

theorem nodup_dedupFirstAux (l : List String) (seen : List String) :
    (dedupFirstAux seen l).Nodup := by
  induction l generalizing seen with
  | nil => simp [dedupFirstAux]
  | cons hd tl ih =>
      simp only [dedupFirstAux]
      split_ifs with hh
      · exact ih seen
      · rw [List.nodup_cons]
        refine ⟨?_, ih (hd :: seen)⟩
        intro hmem
        rw [mem_dedupFirstAux] at hmem
        exact hmem.2 (List.mem_cons_self hd seen)

theorem validEnum_dedupFirst (l : List String) : ValidEnumOn l (dedupFirst l) := by
  refine ⟨nodup_dedupFirstAux l [], ?_, ?_⟩
  · intro x hx
    rw [dedupFirst, mem_dedupFirstAux] at hx
    exact hx.1
  · intro x hx
    rw [dedupFirst, mem_dedupFirstAux]
    exact ⟨hx, by simp⟩

theorem validEnum_revDedup (l : List String) : ValidEnumOn l (revDedup l) := by
  obtain ⟨h1, h2, h3⟩ := validEnum_dedupFirst l
  refine ⟨by simpa [revDedup] using h1, ?_, ?_⟩
  · intro x hx
    exact h2 x (by simpa [revDedup] using hx)
  · intro x hx
    simpa [revDedup] using h3 x hx

/-! ## Python `max(..., key=...)` picks the first maximal element -/

theorem foldl_pyMax_split (k : String → ℕ) (xs : List String) (x : String) :
    ∃ pre post,
      x :: xs = pre ++ (xs.foldl (fun acc y => if k y > k acc then y else acc) x) :: post ∧
      (∀ d ∈ pre, k d < k (xs.foldl (fun acc y => if k y > k acc then y else acc) x)) ∧
      (∀ d ∈ post, k d ≤ k (xs.foldl (fun acc y => if k y > k acc then y else acc) x)) := by
  induction xs generalizing x with
  | nil => exact ⟨[], [], rfl, by simp, by simp⟩
  | cons y ys ih =>
      rw [List.foldl_cons]
      by_cases hxy : k y > k x
      · rw [if_pos hxy]
        obtain ⟨pre', post', heq, hpre, hpost⟩ := ih y
        refine ⟨x :: pre', post', ?_, ?_, hpost⟩
        · rw [List.cons_append, ← heq]
        · intro d hd
          rcases List.mem_cons.mp hd with rfl | hd'
          · have hym : k y ≤ k (ys.foldl (fun acc y => if k y > k acc then y else acc) y) := by
              have hy : y ∈ pre' ++
                  (ys.foldl (fun acc y => if k y > k acc then y else acc) y) :: post' := by
                rw [← heq]
                exact List.mem_cons_self y ys
              rcases List.mem_append.mp hy with h1 | h1
              · exact le_of_lt (hpre y h1)
              · rcases List.mem_cons.mp h1 with heq2 | h2
                · exact le_of_eq (congrArg k heq2)
                · exact hpost y h2
            exact lt_of_lt_of_le hxy hym
          · exact hpre d hd'
      · rw [if_neg hxy]
        obtain ⟨pre', post', heq, hpre, hpost⟩ := ih x
        cases pre' with
        | nil =>
            rw [List.nil_append] at heq
            injection heq with h1 h2
            refine ⟨[], y :: post', ?_, by simp, ?_⟩
            · rw [List.nil_append, ← h1, ← h2]
            · intro d hd
              rcases List.mem_cons.mp hd with rfl | hd'
              · rw [← h1]
                omega
              · exact hpost d hd'
        | cons z rest =>
            rw [List.cons_append] at heq
            injection heq with h1 h2
            have hxz : k x = k z := by rw [h1]
            have hxm : k x <
                k (ys.foldl (fun acc y => if k y > k acc then y else acc) x) :=
              lt_of_le_of_lt (le_of_eq hxz) (hpre z (List.mem_cons_self z rest))
            refine ⟨x :: y :: rest, post', ?_, ?_, hpost⟩
            · exact congrArg (fun t => x :: y :: t) h2
            · intro d hd
              rcases List.mem_cons.mp hd with rfl | hd'
              · exact hxm
              rcases List.mem_cons.mp hd' with rfl | hd''
              · exact lt_of_le_of_lt (by omega) hxm
              · exact hpre d (List.mem_cons_of_mem z hd'')

theorem pyMaxBy_split (k : String → ℕ) (l : List String) (hne : l ≠ []) :
    ∃ pre post, l = pre ++ pyMaxBy k l :: post ∧
      (∀ d ∈ pre, k d < k (pyMaxBy k l)) ∧
      (∀ d ∈ post, k d ≤ k (pyMaxBy k l)) := by
  cases l with
  | nil => exact absurd rfl hne
  | cons x xs =>
      simp only [pyMaxBy]
      exact foldl_pyMax_split k xs x

theorem pyMaxBy_mem (k : String → ℕ) (l : List String) (hne : l ≠ []) :
    pyMaxBy k l ∈ l := by
  obtain ⟨pre, post, heq, -, -⟩ := pyMaxBy_split k l hne
  have hmem : pyMaxBy k l ∈ pre ++ pyMaxBy k l :: post :=
    List.mem_append_right pre (List.mem_cons_self _ _)
  rw [← heq] at hmem
  exact hmem

theorem pyMaxBy_le (k : String → ℕ) (l : List String) (hne : l ≠ [])
    (d : String) (hd : d ∈ l) : k d ≤ k (pyMaxBy k l) := by
  obtain ⟨pre, post, heq, hpre, hpost⟩ := pyMaxBy_split k l hne
  rw [heq] at hd
  rcases List.mem_append.mp hd with h1 | h1
  · exact le_of_lt (hpre d h1)
  · rcases List.mem_cons.mp h1 with rfl | h2
    · exact le_refl _
    · exact hpost d h2

/-! ## A duplicate-free enumeration of a two-element set -/

theorem enum_two (a b : String) (hab : a ≠ b) (e : List String)
    (hnd : e.Nodup) (hmem : ∀ x, x ∈ e ↔ (x = a ∨ x = b)) :
    e = [a, b] ∨ e = [b, a] := by
  cases e with
  | nil => exact absurd ((hmem a).mpr (Or.inl rfl)) (List.not_mem_nil a)
  | cons x e' =>
    cases e' with
    | nil =>
        rcases (hmem x).mp (List.mem_cons_self x []) with rfl | rfl
        · have hb := (hmem b).mpr (Or.inr rfl)
          simp only [List.mem_cons, List.not_mem_nil, or_false] at hb
          exact absurd hb.symm hab
        · have ha := (hmem a).mpr (Or.inl rfl)
          simp only [List.mem_cons, List.not_mem_nil, or_false] at ha
          exact absurd ha hab
    | cons y e'' =>
        rw [List.nodup_cons] at hnd
        have hynd := List.nodup_cons.mp hnd.2
        have hxy : x ≠ y := fun h => hnd.1 (h ▸ List.mem_cons_self y e'')
        have hx := (hmem x).mp (List.mem_cons_self x (y :: e''))
        have hy := (hmem y).mp (List.mem_cons_of_mem x (List.mem_cons_self y e''))
        have he'' : e'' = [] := by
          by_contra hne
          obtain ⟨z, hz⟩ := List.exists_mem_of_ne_nil e'' hne
          have hzx : z ≠ x := fun h => hnd.1 (h ▸ List.mem_cons_of_mem y hz)
          have hzy : z ≠ y := fun h => hynd.1 (h ▸ hz)
          have hzmem := (hmem z).mp
            (List.mem_cons_of_mem x (List.mem_cons_of_mem y hz))
          rcases hx with hxa | hxb
          · rcases hy with hya | hyb
            · exact hxy (hxa.trans hya.symm)
            · rcases hzmem with hza | hzb
              · exact hzx (hza.trans hxa.symm)
              · exact hzy (hzb.trans hyb.symm)
          · rcases hy with hya | hyb
            · rcases hzmem with hza | hzb
              · exact hzy (hza.trans hya.symm)
              · exact hzx (hzb.trans hxb.symm)
            · exact hxy (hxb.trans hyb.symm)
        subst he''
        rcases hx with hxa | hxb
        · rcases hy with hya | hyb
          · exact absurd (hxa.trans hya.symm) hxy
          · rw [hxa, hyb]
            exact Or.inl rfl
        · rcases hy with hya | hyb
          · rw [hxb, hya]
            exact Or.inr rfl
          · exact absurd (hxb.trans hyb.symm) hxy

/-! ## Membership in a sorted prefix -/

theorem mem_take_of_sorted (L : List String) (hL : L.Pairwise (fun x y => x < y))
    (n : ℕ) (d : String) :
    d ∈ L.take n ↔ d ∈ L ∧ (L.filter (fun x => x < d)).length < n := by
  induction L generalizing n with
  | nil => simp
  | cons x L ih =>
      rw [List.pairwise_cons] at hL
      cases n with
      | zero => simp
      | succ m =>
          rw [List.take_succ_cons]
          by_cases hdx : d = x
          · subst hdx
            have hfil : ((d :: L).filter fun y => y < d) = [] := by
              rw [List.filter_eq_nil_iff]
              intro a ha
              simp only [decide_eq_true_eq]
              rcases List.mem_cons.mp ha with rfl | haL
              · exact lt_irrefl a
              · exact fun hlt => absurd (hL.1 a haL) (not_lt.mpr (le_of_lt hlt))
            rw [hfil]
            simp
          · simp only [List.mem_cons]
            by_cases hdL : d ∈ L
            · have hxd : x < d := hL.1 d hdL
              have hfil : ((x :: L).filter fun y => y < d)
                  = x :: L.filter fun y => y < d := by
                rw [List.filter_cons, if_pos (decide_eq_true hxd)]
              rw [hfil, List.length_cons]
              rw [ih hL.2 m]
              constructor
              · rintro (h | ⟨h1, h2⟩)
                · exact absurd h hdx
                · exact ⟨Or.inr h1, by omega⟩
              · rintro ⟨h1, h2⟩
                rcases h1 with h1 | h1
                · exact absurd h1 hdx
                · exact Or.inr ⟨h1, by omega⟩
            · have h1 : d ∉ L.take m := fun hc => hdL (List.take_subset _ _ hc)
              constructor
              · rintro (h | h)
                · exact absurd h hdx
                · exact absurd h h1
              · rintro ⟨h | h, -⟩
                · exact absurd h hdx
                · exact absurd h hdL

/-! ## Claim C5: the weather aggregation -/

/-- C5: for every raw sample list, every valid set-iteration order and every
non-negative `trip_length`, the aggregation emits records whose dates are
strictly ascending (one record per distinct calendar date), truncated to the
first `trip_length` distinct dates; each record's `temp_max`/`temp_min` are
the extrema of that date's samples rounded to one decimal place and its
precipitation is the per-date maximum rounded to two decimals; and on the
spec's example — one date with descriptions "rain" (×2) and "clear" (×1),
temperatures drawn from [18.2, 20.7] and probabilities from [0.4, 0.9] — the
resulting record is
`{summary:"rain", temp_max:20.7, temp_min:18.2, precipitation:0.9}`,
whatever order CPython iterates the description set in. -/
theorem claim5_weather_aggregation (enum : List String → List String)
    (samples : List Sample) (days : ℤ)
    (henum : ∀ l, ValidEnumOn l (enum l)) (hdays : 0 ≤ days) :
    ((aggregate enum samples days).map DayForecast.date).Pairwise (fun x y => x < y) ∧
    (aggregate enum samples days).length
      = min days.toNat (samples.map Sample.date).dedup.length ∧
    (∀ d : String, d ∈ (aggregate enum samples days).map DayForecast.date ↔
      (d ∈ samples.map Sample.date ∧
        ((samples.map Sample.date).dedup.filter (fun x => x < d)).length < days.toNat)) ∧
    (∀ f ∈ aggregate enum samples days,
      f.temp_max = round1 (qMax ((samples.filter fun x => x.date = f.date).map Sample.temp)) ∧
      f.temp_min = round1 (qMin ((samples.filter fun x => x.date = f.date).map Sample.temp)) ∧
      f.pop_max = round2 (qMax ((samples.filter fun x => x.date = f.date).map Sample.pop))) ∧
    aggregate enum
      [⟨"2099-07-01 00:00:00", 18.2, "rain", 0.4⟩,
       ⟨"2099-07-01 03:00:00", 20.7, "rain", 0.9⟩,
       ⟨"2099-07-01 06:00:00", 20.7, "clear", 0.4⟩] 5
      = [⟨"2099-07-01", "rain", 20.7, 18.2, 0.9⟩] := by
  have hperm : (sortPairsAsc (groupByDate samples)).Perm (groupByDate samples) :=
    sortPairsAsc_perm _
  have hkeysperm : ((sortPairsAsc (groupByDate samples)).map Prod.fst).Perm
      ((groupByDate samples).map Prod.fst) := hperm.map _
  have hnodupG : ((sortPairsAsc (groupByDate samples)).map Prod.fst).Nodup :=
    hkeysperm.nodup_iff.mpr (keys_groupByDate_nodup samples)
  have hsortedG : ((sortPairsAsc (groupByDate samples)).map Prod.fst).Pairwise
      (fun x y => x ≤ y) := by
    rw [List.pairwise_map]
    exact sortPairsAsc_pairwise _
  have hltG : ((sortPairsAsc (groupByDate samples)).map Prod.fst).Pairwise
      (fun x y => x < y) :=
    (hsortedG.and hnodupG).imp (fun h => lt_of_le_of_ne h.1 h.2)
  have hmemG : ∀ d, d ∈ (sortPairsAsc (groupByDate samples)).map Prod.fst ↔
      d ∈ samples.map Sample.date := by
    intro d
    rw [hkeysperm.mem_iff]
    exact mem_keys_groupByDate samples d
  have hpermD : ((sortPairsAsc (groupByDate samples)).map Prod.fst).Perm
      (samples.map Sample.date).dedup :=
    (List.perm_ext_iff_of_nodup hnodupG (List.nodup_dedup _)).mpr
      (fun x => by rw [hmemG x, List.mem_dedup])
  have hout : aggregate enum samples days
      = ((sortPairsAsc (groupByDate samples)).take days.toNat).map (mkForecast enum) := by
    rw [aggregate, pySliceTo, if_pos hdays]
  have houtdates : (aggregate enum samples days).map DayForecast.date
      = ((sortPairsAsc (groupByDate samples)).map Prod.fst).take days.toNat := by
    rw [hout, ← List.map_take, List.map_map]
    rfl
  refine ⟨?_, ?_, ?_, ?_, ?_⟩
  · rw [houtdates]
    exact hltG.sublist (List.take_sublist _ _)
  · rw [hout, List.length_map, List.length_take, ← hpermD.length_eq, List.length_map]
  · intro d
    rw [houtdates, mem_take_of_sorted _ hltG, hmemG d, (hpermD.filter _).length_eq]
  · intro f hf
    rw [hout] at hf
    obtain ⟨p, hp, hfp⟩ := List.mem_map.mp hf
    have hpG : p ∈ sortPairsAsc (groupByDate samples) := List.take_subset _ _ hp
    have hpg : p ∈ groupByDate samples := hperm.mem_iff.mp hpG
    have hlook : alookup p.1 (groupByDate samples) = some p.2 := by
      obtain ⟨d, r⟩ := p
      exact alookup_of_mem _ _ _ (keys_groupByDate_nodup samples) hpg
    rw [alookup_groupByDate] at hlook
    by_cases hfil : (samples.filter fun x => x.date = p.1) = []
    · rw [if_pos hfil] at hlook
      cases hlook
    · rw [if_neg hfil] at hlook
      have hp2 : p.2 = groupRec samples p.1 := by
        injection hlook with h
        exact h.symm
      rw [← hfp]
      refine ⟨?_, ?_, ?_⟩
      · show round1 (qMax p.2.temps)
            = round1 (qMax ((samples.filter fun x => x.date = p.1).map Sample.temp))
        rw [hp2]
        rfl
      · show round1 (qMin p.2.temps)
            = round1 (qMin ((samples.filter fun x => x.date = p.1).map Sample.temp))
        rw [hp2]
        rfl
      · show round2 (qMax p.2.pops)
            = round2 (qMax ((samples.filter fun x => x.date = p.1).map Sample.pop))
        rw [hp2]
        rfl
  · have hv := henum ["rain", "rain", "clear"]
    have hmem2 : ∀ x, x ∈ enum ["rain", "rain", "clear"] ↔
        (x = "rain" ∨ x = "clear") := by
      intro x
      constructor
      · intro hx
        have hxin := hv.2.1 x hx
        simpa using hxin
      · intro hx
        apply hv.2.2
        rcases hx with rfl | rfl <;> simp
    have hsum : pyMaxBy (fun x => (["rain", "rain", "clear"] : List String).count x)
        (enum ["rain", "rain", "clear"]) = "rain" := by
      rcases enum_two "rain" "clear" (by decide) _ hv.1 hmem2 with he | he <;>
        rw [he] <;> decide
    have hcalc : aggregate enum
        [⟨"2099-07-01 00:00:00", 18.2, "rain", 0.4⟩,
         ⟨"2099-07-01 03:00:00", 20.7, "rain", 0.9⟩,
         ⟨"2099-07-01 06:00:00", 20.7, "clear", 0.4⟩] 5
        = [{ date := "2099-07-01",
             summary := pyMaxBy (fun x => (["rain", "rain", "clear"] : List String).count x)
               (enum ["rain", "rain", "clear"]),
             temp_max := round1 (qMax [18.2, 20.7, 20.7]),
             temp_min := round1 (qMin [18.2, 20.7, 20.7]),
             pop_max := round2 (qMax [0.4, 0.9, 0.4]) }] := rfl
    rw [hcalc, hsum]
    have h1 : round1 (qMax [(18.2 : ℚ), 20.7, 20.7]) = 20.7 := by
      show round1 (max (max (18.2 : ℚ) 20.7) 20.7) = 20.7
      rw [round1]
      norm_num [max_def, round_eq]
    have h2 : round1 (qMin [(18.2 : ℚ), 20.7, 20.7]) = 18.2 := by
      show round1 (min (min (18.2 : ℚ) 20.7) 20.7) = 18.2
      rw [round1]
      norm_num [min_def, round_eq]
    have h3 : round2 (qMax [(0.4 : ℚ), 0.9, 0.4]) = 0.9 := by
      show round2 (max (max (0.4 : ℚ) 0.9) 0.4) = 0.9
      rw [round2]
      norm_num [max_def, round_eq]
    rw [h1, h2, h3]

/-- Witness for C5 on the spec's example with the first-encounter set order. -/
theorem claim5_witness :
    aggregate dedupFirst
      [⟨"2099-07-01 00:00:00", 18.2, "rain", 0.4⟩,
       ⟨"2099-07-01 03:00:00", 20.7, "rain", 0.9⟩,
       ⟨"2099-07-01 06:00:00", 20.7, "clear", 0.4⟩] 5
      = [⟨"2099-07-01", "rain", 20.7, 18.2, 0.9⟩] :=
  (claim5_weather_aggregation dedupFirst
    [⟨"2099-07-01 00:00:00", 18.2, "rain", 0.4⟩,
     ⟨"2099-07-01 03:00:00", 20.7, "rain", 0.9⟩,
     ⟨"2099-07-01 06:00:00", 20.7, "clear", 0.4⟩] 5
    validEnum_dedupFirst (by norm_num)).2.2.2.2

/-! ## Claim C9: the tie-break of the daily summary -/

/-- C9 (amended): the summary the code computes —
`max(set(descs), key=descs.count)` — is the first element of the set's
iteration order whose frequency in the description list is maximal: it is a
most-frequent description, but ties are broken by position in the
hash-dependent set iteration order, not by first encounter during the
frequency scan, so on a tie the summary depends on that order as well as on
the samples. -/
theorem claim9_summary_first_max_in_enum (descs enum_l : List String)
    (hval : ValidEnumOn descs enum_l) (hne : descs ≠ []) :
    pyMaxBy (fun x => descs.count x) enum_l ∈ descs ∧
    (∀ d ∈ descs,
      descs.count d ≤ descs.count (pyMaxBy (fun x => descs.count x) enum_l)) ∧
    ∃ pre post, enum_l = pre ++ pyMaxBy (fun x => descs.count x) enum_l :: post ∧
      ∀ d ∈ pre,
        descs.count d < descs.count (pyMaxBy (fun x => descs.count x) enum_l) := by
  have hne' : enum_l ≠ [] := by
    obtain ⟨x, hx⟩ := List.exists_mem_of_ne_nil descs hne
    exact List.ne_nil_of_mem (hval.2.2 x hx)
  have hmem := pyMaxBy_mem (fun x => descs.count x) enum_l hne'
  obtain ⟨pre, post, heq, hpre, -⟩ := pyMaxBy_split (fun x => descs.count x) enum_l hne'
  refine ⟨hval.2.1 _ hmem, ?_, pre, post, heq, hpre⟩
  intro d hd
  exact pyMaxBy_le (fun x => descs.count x) enum_l hne' d (hval.2.2 d hd)

/-- Witness for C9 on the tied list ["a","b"] and the reversed set order. -/
theorem claim9_witness :
    ValidEnumOn ["a", "b"] ["b", "a"] ∧
    pyMaxBy (fun x => (["a", "b"] : List String).count x) ["b", "a"]
      ∈ (["a", "b"] : List String) := by
  have h := claim9_summary_first_max_in_enum ["a", "b"] ["b", "a"]
    (by decide) (by decide)
  exact ⟨by decide, h.1⟩

/-- C9 counterexample: the descriptions "a" and "b" are tied; the reversed
set order is a valid iteration order of `set(descs)` under which the code's
summary is "b", while the first-encountered maximal description is "a" (the
first-encounter order yields "a") — so the tie is not broken by first
encounter and the chosen summary is not a function of the input sample
order alone. -/
theorem claim9_counterexample :
    ValidEnumOn ["a", "b"] (revDedup ["a", "b"]) ∧
    revDedup ["a", "b"] = ["b", "a"] ∧
    (["a", "b"] : List String).count "a" = (["a", "b"] : List String).count "b" ∧
    pyMaxBy (fun x => (["a", "b"] : List String).count x) (revDedup ["a", "b"]) = "b" ∧
    pyMaxBy (fun x => (["a", "b"] : List String).count x) (dedupFirst ["a", "b"]) = "a" ∧
    (aggregate revDedup
        [⟨"2099-07-01 00:00:00", 20, "a", 0⟩,
         ⟨"2099-07-01 03:00:00", 21, "b", 0⟩] 5).map DayForecast.summary = ["b"] ∧
    (aggregate dedupFirst
        [⟨"2099-07-01 00:00:00", 20, "a", 0⟩,
         ⟨"2099-07-01 03:00:00", 21, "b", 0⟩] 5).map DayForecast.summary = ["a"] ∧
    ("b" : String) ≠ "a" := by
  refine ⟨by decide, by decide, by decide, by decide, by decide, rfl, rfl, by decide⟩

end TravelAssistant
